import Mathlib

/-!
Shallow embedding of the graph-analysis pipeline in
`final_work/code/__init__.py` (functions `load_graphs_from_graph6_file`,
`calculate_centralities`, `evaluate_connectivity`, `main`).

Conventions:
* Node identifiers are natural numbers; float values are idealised as
  rationals (reals where a square root appears).
* Exceptions are modelled with `Option`/`Except`; text printed to stdout is
  modelled as an explicit log of structured events returned alongside the
  value (number formatting of the prints is abstracted away).
* The external `networkx` collaborators the code calls
  (`number_connected_components`, `connected_components`, `subgraph`,
  `diameter`) are modelled by executable definitions of their documented
  mathematical meaning; the decoders `from_graph6_bytes` /
  `from_sparse6_bytes` and the measure functions of the two catalogs are
  kept abstract, as parameters.
-/

namespace GraphTheory

/-- An in-memory undirected graph as produced by the decoders: a node list
(in insertion order, as iterated by `networkx`) and an edge list.  An edge
`(u, v)` connects `u` and `v` in both directions. -/
structure Graph where
  nodeList : List ℕ
  edges : List (ℕ × ℕ)
deriving DecidableEq, Repr

/-- The node set of a graph. -/
def nodesF (g : Graph) : Finset ℕ := g.nodeList.toFinset

/-- Adjacency test: some stored edge joins `u` and `v` (in either
orientation). -/
def adjb (g : Graph) (u v : ℕ) : Bool :=
  g.edges.any (fun e => (e.1 = u && e.2 = v) || (e.1 = v && e.2 = u))

/-- One breadth-first expansion step: add every node of the graph adjacent
to the current set. -/
def stepF (g : Graph) (s : Finset ℕ) : Finset ℕ :=
  s ∪ (nodesF g).filter (fun v => ∃ w ∈ s, adjb g w v = true)

/-- All nodes reachable from `u` (the connected component of `u`):
`|nodeList|` expansion steps always suffice. -/
def reach (g : Graph) (u : ℕ) : Finset ℕ :=
  (stepF g)^[g.nodeList.length] {u}

/-- Model of `networkx.connected_components`: enumerate the nodes in
insertion order and emit the component of every node not seen before. -/
def componentsAux (g : Graph) : List ℕ → Finset ℕ → List (Finset ℕ)
  | [], _ => []
  | v :: rest, seen =>
    if v ∈ seen then componentsAux g rest seen
    else reach g v :: componentsAux g rest (seen ∪ reach g v)

/-- The list of connected components of `g`. -/
def connected_components (g : Graph) : List (Finset ℕ) :=
  componentsAux g g.nodeList ∅

/-- Model of `networkx.number_connected_components`. -/
def number_connected_components (g : Graph) : ℕ :=
  (connected_components g).length

/-- Python `max(components, key=len)` on a list of sets: the first set of
maximal cardinality; raises (`none`) on an empty list. -/
def pyMaxByLen : List (Finset ℕ) → Option (Finset ℕ)
  | [] => none
  | x :: xs => some (xs.foldl (fun acc y => if acc.card < y.card then y else acc) x)

/-- Model of `G.subgraph(nodes)`: the subgraph induced by a node set. -/
def subgraph (g : Graph) (s : Finset ℕ) : Graph :=
  { nodeList := g.nodeList.filter (fun v => decide (v ∈ s)),
    edges := g.edges.filter (fun e => decide (e.1 ∈ s) && decide (e.2 ∈ s)) }

/-- Shortest-path distance between `u` and `v` via breadth-first expansion:
the least number of steps after which `v` is reached from `u`; `none` when
`v` is unreachable. -/
def dist (g : Graph) (u v : ℕ) : Option ℕ :=
  (List.range (g.nodeList.length + 1)).find? (fun k => decide (v ∈ (stepF g)^[k] {u}))

/-- Model of `networkx.diameter`: the largest shortest-path distance between
two nodes; raises (`none`) on an empty or disconnected graph. -/
def diameter (g : Graph) : Option ℕ :=
  if (nodesF g).Nonempty ∧ ∀ u ∈ nodesF g, ∀ v ∈ nodesF g, (dist g u v).isSome = true
  then some ((nodesF g).sup (fun u => (nodesF g).sup (fun v => (dist g u v).getD 0)))
  else none

/-- The dictionary returned by `evaluate_connectivity` (source lines
158-162). -/
structure ConnectivityFacts where
  num_components : ℕ
  largest_size : ℕ
  graph_diameter : ℕ
deriving DecidableEq, Repr

/-- `evaluate_connectivity` (source lines 131-166): number of connected
components, size of the largest component (`max(components, key=len)`), and
the diameter of the subgraph induced by the largest component.  `none`
models an uncaught exception (`max` on an empty sequence for a zero-node
graph, or `networkx.diameter` raising). -/
def evaluate_connectivity (g : Graph) : Option ConnectivityFacts :=
  let num_components := number_connected_components g
  match pyMaxByLen (connected_components g) with
  | none => none
  | some largest_component =>
    match diameter (subgraph g largest_component) with
    | none => none
    | some d =>
      some { num_components := num_components,
             largest_size := largest_component.card,
             graph_diameter := d }

/-! ## Measures and `calculate_centralities` -/

/-- A value assignable to a Python variable in this pipeline: the result of
a scalar measure is a number or a set of node/edge identifiers. -/
inductive ScalarVal where
  | num (q : ℚ)
  | nodeSet (s : List ℕ)
  | edgeSet (s : List (ℕ × ℕ))
deriving DecidableEq, Repr

/-- The raw return value of a measure function: either a per-node mapping
(a Python `dict`, kept in insertion order) or a scalar. -/
inductive RawResult where
  | pyDict (entries : List (ℕ × ℚ))
  | scalar (v : ScalarVal)
deriving DecidableEq, Repr

/-- The extra keyword arguments `calculate_centralities` passes for the
special-cased labels (source lines 91-99). -/
inductive CallArgs where
  | withMethod (method : String)
  | katzArgs (alpha beta : ℚ) (maxIter : ℕ)
  | pagerankArgs (alpha : ℚ)
  | noArgs
deriving DecidableEq, Repr

/-- Which arguments the dispatch on the label selects (source lines 91-99):
`method="lanczos"` for algebraic connectivity, `alpha=0.005, beta=1.0,
max_iter=2000` for Katz centrality, `alpha=0.85` for PageRank, and no extra
arguments otherwise. -/
def argsFor (label : String) : CallArgs :=
  if label = "Algebraic Connectivity" then .withMethod "lanczos"
  else if label = "Katz Centrality" then .katzArgs (5 / 1000) 1 2000
  else if label = "PageRank" then .pagerankArgs (85 / 100)
  else .noArgs

/-- A measure function of the catalog: an external `networkx` algorithm,
taking the graph and the keyword arguments and either returning a raw
result or raising. -/
def MeasureFn : Type := Graph → CallArgs → Except String RawResult

/-- Invoking one catalog entry (source lines 91-99). -/
def runMeasure (g : Graph) (label : String) (f : MeasureFn) : Except String RawResult :=
  f g (argsFor label)

/-- Python `sum(values) / len(values)`. -/
def mean (l : List ℚ) : ℚ := l.sum / l.length

/-- Population variance: mean squared deviation, dividing by `N`. -/
def pvariance (l : List ℚ) : ℚ :=
  (l.map (fun x => (x - mean l) ^ 2)).sum / l.length

/-- An exact numeric value of the pipeline, kept symbolic so that the
embedding stays executable: either a rational or the (possibly irrational)
square root of a nonnegative rational. -/
inductive PyReal where
  | rat (q : ℚ)
  | sqrtRat (q : ℚ)
deriving DecidableEq, Repr

/-- The real number a `PyReal` denotes. -/
noncomputable def PyReal.toReal : PyReal → ℝ
  | .rat q => (q : ℝ)
  | .sqrtRat q => Real.sqrt ((q : ℚ) : ℝ)

/-- `statistics.pstdev`: the square root of the population variance. -/
def pstdev (l : List ℚ) : PyReal := .sqrtRat (pvariance l)

/-- The four summary statistics stored for a per-node measure (source lines
112-117). -/
structure DistributionSummary where
  average : ℚ
  minimum : ℚ
  maximum : ℚ
  std_dev : PyReal
deriving DecidableEq, Repr

/-- The dict branch of `calculate_centralities` (source lines 103-117):
summary statistics of the dict values.  `none` models the
`ZeroDivisionError` raised on an empty value list (caught by the
surrounding `except`).  Python `min`/`max` fold over the values. -/
def summarizeValues : List ℚ → Option DistributionSummary
  | [] => none
  | x :: xs =>
    some { average := mean (x :: xs),
           minimum := xs.foldl min x,
           maximum := xs.foldl max x,
           std_dev := pstdev (x :: xs) }

/-- One structured line of stdout produced by `calculate_centralities`
(lines 100, 118-121, 125, 128); numeric formatting is abstracted. -/
inductive LogEntry where
  | header (label : String)
  | statsLine (label : String) (s : DistributionSummary)
  | valueLine (v : ScalarVal)
  | errorLine (label : String) (err : String)
deriving DecidableEq, Repr

/-- Processing of a single catalog entry inside the loop of
`calculate_centralities` (source lines 89-128): the optional entry added to
`results` plus the lines printed. -/
def measureStep (g : Graph) (label : String) (f : MeasureFn) :
    Option (String × DistributionSummary) × List LogEntry :=
  match runMeasure g label f with
  | .error e => (none, [.errorLine label e])
  | .ok (.pyDict entries) =>
    match summarizeValues (entries.map Prod.snd) with
    | none => (none, [.header label, .errorLine label "division by zero"])
    | some s => (some (label, s), [.header label, .statsLine label s])
  | .ok (.scalar v) => (none, [.header label, .valueLine v])

/-- `calculate_centralities` (source lines 83-129): fold the catalog in
declared order, collecting the per-node summaries into `results` (in
insertion order) and the printed output into a log.  The scalar branch only
prints; the `except` branch only prints.  The function itself never
raises. -/
def calculate_centralities (g : Graph) :
    List (String × MeasureFn) → List (String × DistributionSummary) × List LogEntry
  | [] => ([], [])
  | (label, f) :: rest =>
    let hd := measureStep g label f
    let tl := calculate_centralities g rest
    (hd.1.toList ++ tl.1, hd.2 ++ tl.2)

/-- The `(label, error)` diagnostics surfaced by a run: the error lines of
the printed log. -/
def diagnosticsOf (log : List LogEntry) : List (String × String) :=
  log.filterMap (fun entry =>
    match entry with
    | .errorLine l e => some (l, e)
    | _ => none)

/-! ## The aggregated table (pandas model) and `main` -/

/-- A cell value of the aggregated table. -/
inductive PValue where
  | str (s : String)
  | nat (n : ℕ)
  | rat (q : ℚ)
  | real (r : PyReal)
  | nan
deriving DecidableEq, Repr

/-- A `new_row` dictionary: keys in insertion order with their values. -/
def PyRow : Type := List (String × PValue)

/-- A pandas `DataFrame`: an ordered column list and, per row, the cell
values aligned with the columns. -/
structure DataFrame where
  cols : List String
  cells : List (List PValue)
deriving DecidableEq, Repr

/-- `pd.DataFrame()`: the initial empty table (source line 199). -/
def emptyDF : DataFrame := { cols := [], cells := [] }

/-- `pd.concat([df, pd.DataFrame([row])], ignore_index=True)` (source line
231): the columns become the union (existing order first, the row's unseen
keys appended), existing rows are padded with `NaN` in the new columns, and
the new row is aligned to all columns, with `NaN` where a key is absent. -/
def pdConcatRow (df : DataFrame) (r : PyRow) : DataFrame :=
  let newKeys := (r.map Prod.fst).filter (fun k => decide (k ∉ df.cols))
  let cols := df.cols ++ newKeys
  { cols := cols,
    cells := df.cells.map (fun row => row ++ List.replicate newKeys.length PValue.nan)
      ++ [cols.map (fun c => ((r.lookup c).getD PValue.nan))] }

/-- The position of a column name in a column list. -/
def indexOfCol : List String → String → Option ℕ
  | [], _ => none
  | k :: ks, c => if k = c then some 0 else (indexOfCol ks c).map (· + 1)

/-- Reading one cell of the table by row index and column name. -/
def getCell (df : DataFrame) (i : ℕ) (c : String) : Option PValue :=
  match indexOfCol df.cols c with
  | none => none
  | some j =>
    match df.cells.get? i with
    | none => none
    | some row => row.get? j

/-- The four statistics of a summary, in the insertion order of the stored
dict (source lines 112-117). -/
def statPairs (s : DistributionSummary) : List (String × PValue) :=
  [("Average", .rat s.average), ("Minimum", .rat s.minimum),
   ("Maximum", .rat s.maximum), ("Standard Deviation", .real s.std_dev)]

/-- The flattened `{cls}{label}_{stat}` keys of one results mapping (source
lines 227-228); `cls` is `"Centrality_"` or `"Connectivity_"`. -/
def flattenStats (cls : String) (res : List (String × DistributionSummary)) :
    List (String × PValue) :=
  res.flatMap (fun p =>
    (statPairs p.2).map (fun q => (cls ++ p.1 ++ "_" ++ q.1, q.2)))

/-- The three keys contributed by `evaluate_connectivity` (source line
229). -/
def evalPairs (f : ConnectivityFacts) : List (String × PValue) :=
  [("Number of connected components", .nat f.num_components),
   ("Size of largest component", .nat f.largest_size),
   ("Graph diameter", .nat f.graph_diameter)]

/-- `G.number_of_nodes()`: the number of distinct nodes. -/
def number_of_nodes (g : Graph) : ℕ := (nodesF g).card

/-- `G.number_of_edges()`: the number of distinct undirected edges. -/
def number_of_edges (g : Graph) : ℕ :=
  ((g.edges.map (fun e => if e.1 ≤ e.2 then e else (e.2, e.1))).toFinset).card

/-- The `new_row` dictionary built for one graph (source lines 222-230). -/
def newRow (file : String) (i : ℕ) (g : Graph)
    (cents conns : List (String × DistributionSummary))
    (facts : ConnectivityFacts) : PyRow :=
  ("File", PValue.str file) :: ("Graph_Index", PValue.nat i) ::
  ("Num_Nodes", PValue.nat (number_of_nodes g)) ::
  ("Num_Edges", PValue.nat (number_of_edges g)) ::
  (flattenStats "Centrality_" cents ++ flattenStats "Connectivity_" conns
    ++ evalPairs facts)

/-- Python `bytes.strip()` (used on each raw line): drop leading and
trailing whitespace.  (Executable equivalent of `String.trim`, which the
kernel cannot reduce.) -/
def pyStrip (s : String) : String :=
  ⟨(((s.data.dropWhile Char.isWhitespace).reverse).dropWhile Char.isWhitespace).reverse⟩

/-- Python `str.startswith` on character lists. -/
def strStartsWith (s p : String) : Bool := p.data.isPrefixOf s.data

/-- Python `str.endswith` on character lists. -/
def strEndsWith (s p : String) : Bool := p.data.reverse.isPrefixOf s.data.reverse

/-- The per-graph body of the loop in `main` (source lines 210-230):
visualization and heatmap are pure side effects (no-ops here), then the two
`calculate_centralities` runs and `evaluate_connectivity`; an exception of
`evaluate_connectivity` propagates out of the body. -/
def processGraph (dictCent dictConn : List (String × MeasureFn))
    (file : String) (i : ℕ) (g : Graph) : Except String PyRow :=
  let cents := (calculate_centralities g dictCent).1
  match evaluate_connectivity g with
  | none => .error "max() arg is an empty sequence"
  | some facts =>
    let conns := (calculate_centralities g dictConn).1
    .ok (newRow file i g cents conns facts)

/-- The `for i, G in enumerate(graph_list)` loop of `main` (source lines
210-231), threading the accumulated table: rows appended before a failure
are kept; the first failing graph stops the loop with its error (caught by
the per-file handler). -/
def processGraphsLoop (dictCent dictConn : List (String × MeasureFn))
    (file : String) : DataFrame → List Graph → ℕ → DataFrame × Option String
  | df, [], _ => (df, none)
  | df, g :: rest, i =>
    match processGraph dictCent dictConn file i g with
    | .error e => (df, some e)
    | .ok row => processGraphsLoop dictCent dictConn file (pdConcatRow df row) rest (i + 1)

/-- `load_graphs_from_graph6_file` (source lines 7-29): strip each line,
skip blank lines and the `>>graph6<<` header, dispatch on the `:` marker
to the sparse6 or graph6 decoder (external, passed as parameters), and
collect the graphs in line order.  A decoding error propagates, abandoning
the whole file. -/
def load_graphs_from_graph6_file (dS dD : String → Except String Graph) :
    List String → Except String (List Graph)
  | [] => .ok []
  | raw :: rest =>
    let line := pyStrip raw
    if line = "" then load_graphs_from_graph6_file dS dD rest
    else if line = ">>graph6<<" then load_graphs_from_graph6_file dS dD rest
    else if strStartsWith line ":" then
      match dS line with
      | .error e => .error e
      | .ok g =>
        match load_graphs_from_graph6_file dS dD rest with
        | .error e => .error e
        | .ok gs => .ok (g :: gs)
    else
      match dD line with
      | .error e => .error e
      | .ok g =>
        match load_graphs_from_graph6_file dS dD rest with
        | .error e => .error e
        | .ok gs => .ok (g :: gs)

/-- The run state of `main`: the accumulated table, the `graphs` dictionary
(whose per-file totals form the final summary), and the `Failed to read`
messages printed by the per-file handler (source lines 233-234). -/
structure RunState where
  df : DataFrame
  gmap : List (String × List Graph)
  failures : List String
deriving Repr

/-- The initial state of `main` (source lines 170, 199). -/
def initState : RunState := { df := emptyDF, gmap := [], failures := [] }

/-- The message printed by the per-file exception handler (source line
234). -/
def failMsg (file e : String) : String := "Failed to read " ++ file ++ ": " ++ e

/-- Processing of one directory entry in `main` (source lines 202-236):
non-`.g6` files are skipped; a decode failure abandons the shard (no rows,
no `graphs` entry) and records one failure; otherwise the shard's graphs
are processed in order, and a failure inside the loop keeps the rows
appended so far and records one failure. -/
def processFile (dS dD : String → Except String Graph)
    (dictCent dictConn : List (String × MeasureFn))
    (s : RunState) (file : String × List String) : RunState :=
  if strEndsWith file.1 ".g6" then
    match load_graphs_from_graph6_file dS dD file.2 with
    | .error e => { s with failures := s.failures ++ [failMsg file.1 e] }
    | .ok gs =>
      let r := processGraphsLoop dictCent dictConn file.1 s.df gs 0
      { df := r.1,
        gmap := s.gmap ++ [(file.1, gs)],
        failures := s.failures ++
          (match r.2 with
           | none => []
           | some e => [failMsg file.1 e]) }
  else s

/-- `main` (source lines 168-242) over a directory listing of
`(name, lines)` shards, with the decoders and the two catalogs as external
parameters. -/
def mainRun (dS dD : String → Except String Graph)
    (dictCent dictConn : List (String × MeasureFn))
    (files : List (String × List String)) : RunState :=
  files.foldl (processFile dS dD dictCent dictConn) initState

/-- The final per-shard summary printed at source lines 239-242: total
nodes and edges per loaded shard. -/
def summaryOf (s : RunState) : List (String × ℕ × ℕ) :=
  s.gmap.map (fun p =>
    (p.1, (p.2.map number_of_nodes).sum, (p.2.map number_of_edges).sum))

/-- Two disjoint triangles: the disconnected test graph of the spec. -/
def twoTriangles : Graph :=
  { nodeList := [0, 1, 2, 3, 4, 5],
    edges := [(0, 1), (1, 2), (0, 2), (3, 4), (4, 5), (3, 5)] }

/-- The empty (zero-node) graph. -/
def emptyGraph : Graph := { nodeList := [], edges := [] }

/-- A single-node graph. -/
def singletonGraph : Graph := { nodeList := [7], edges := [] }

/-- A small concrete graph for instantiating the general theorems. -/
def cexG : Graph := { nodeList := [0, 1], edges := [(0, 1)] }

/-- A catalog entry returning a scalar result. -/
def scalarMeasure : MeasureFn := fun _ _ => .ok (.scalar (.num 2))

/-- A catalog entry that always raises. -/
def failingMeasure : MeasureFn := fun _ _ => .error "boom"

/-- A catalog entry returning a per-node dict with values 1, 2, 3, 4. -/
def degreeDict : MeasureFn := fun _ _ => .ok (.pyDict [(0, 1), (1, 2), (2, 3), (3, 4)])

/-- The mutable world of a `calculate_centralities` call: the graph, the
catalog and the text printed so far.  The source body assigns only to its
local `results`; the graph and catalog are read, never written, and the
catalog functions are external pure algorithms, so a run changes only
`stdout`. -/
structure WorldState where
  graph : Graph
  catalog : List (String × MeasureFn)
  stdout : List LogEntry

/-- One run of `calculate_centralities` over the world state: the printed
lines are appended to `stdout` and the result mapping is returned. -/
def runOnce (s : WorldState) : WorldState × List (String × DistributionSummary) :=
  let r := calculate_centralities s.graph s.catalog
  ({ s with stdout := s.stdout ++ r.2 }, r.1)

/-- `mainRun` resumed from an arbitrary intermediate state. -/
def runFrom (dS dD : String → Except String Graph)
    (dictCent dictConn : List (String × MeasureFn))
    (s : RunState) (files : List (String × List String)) : RunState :=
  files.foldl (processFile dS dD dictCent dictConn) s

/-- A record for a graph on which the `"Degree"` measure succeeded. -/
def rowWithDegree : PyRow :=
  newRow "a.g6" 0 singletonGraph
    [("Degree", { average := 1, minimum := 1, maximum := 1, std_dev := .sqrtRat 0 })]
    [] { num_components := 1, largest_size := 1, graph_diameter := 0 }

/-- A record for a graph on which every centrality measure failed: no
measure keys at all. -/
def rowWithoutDegree : PyRow :=
  newRow "a.g6" 1 singletonGraph [] []
    { num_components := 1, largest_size := 1, graph_diameter := 0 }

/-- Relation underlying reachability: one edge step, landing on a node of
the graph. -/
def relOf (g : Graph) (a b : ℕ) : Prop := b ∈ nodesF g ∧ adjb g a b = true

/-- Mathematical reachability: the reflexive-transitive closure of
adjacency. -/
def ReachP (g : Graph) (u v : ℕ) : Prop := Relation.ReflTransGen (relOf g) u v

/-! ## Helper lemmas about `calculate_centralities` -/

lemma calc_cons (g : Graph) (l : String) (f : MeasureFn)
    (rest : List (String × MeasureFn)) :
    calculate_centralities g ((l, f) :: rest) =
      ((measureStep g l f).1.toList ++ (calculate_centralities g rest).1,
       (measureStep g l f).2 ++ (calculate_centralities g rest).2) := rfl

lemma calc_append (g : Graph) (a b : List (String × MeasureFn)) :
    calculate_centralities g (a ++ b) =
      ((calculate_centralities g a).1 ++ (calculate_centralities g b).1,
       (calculate_centralities g a).2 ++ (calculate_centralities g b).2) := by
  induction a with
  | nil => simp [calculate_centralities]
  | cons hd tl ih =>
    obtain ⟨l, f⟩ := hd
    simp [calc_cons, ih, List.append_assoc]

lemma measureStep_shape (g : Graph) (l : String) (f : MeasureFn) :
    (measureStep g l f).1 = none ∨ ∃ s, (measureStep g l f).1 = some (l, s) := by
  unfold measureStep
  cases hr : runMeasure g l f with
  | error e => simp
  | ok r =>
    cases r with
    | pyDict entries =>
      cases hs : summarizeValues (entries.map Prod.snd) with
      | none => simp [hs]
      | some s => right; exact ⟨s, by simp [hs]⟩
    | scalar v => simp

lemma mem_results_key (g : Graph) (m : List (String × MeasureFn))
    (p : String × DistributionSummary) (hp : p ∈ (calculate_centralities g m).1) :
    p.1 ∈ m.map Prod.fst := by
  induction m with
  | nil => simp [calculate_centralities] at hp
  | cons hd tl ih =>
    obtain ⟨l, f⟩ := hd
    rw [calc_cons] at hp
    rcases List.mem_append.1 hp with h1 | h2
    · rcases measureStep_shape g l f with h0 | ⟨s, hs⟩
      · rw [h0] at h1; simp at h1
      · rw [hs] at h1
        simp at h1
        simp [h1]
    · simp [ih h2]

lemma lookup_eq_none_of_key_not_mem {α : Type} (l : List (String × α)) (k : String)
    (h : ∀ p ∈ l, p.1 ≠ k) : l.lookup k = none := by
  rw [List.lookup_eq_none_iff]
  intro p hp
  simpa using Ne.symm (h p hp)

lemma lookup_append_of_none {α : Type} (l₁ l₂ : List (String × α)) (k : String)
    (h : l₁.lookup k = none) : (l₁ ++ l₂).lookup k = l₂.lookup k := by
  induction l₁ with
  | nil => rfl
  | cons hd tl ih =>
    obtain ⟨a, b⟩ := hd
    cases hk : (k == a) with
    | true => rw [List.lookup_cons, hk] at h; simp at h
    | false =>
      rw [List.lookup_cons, hk] at h
      rw [List.cons_append, List.lookup_cons, hk]
      simpa using ih (by simpa using h)

/-! ## Claims C1, C2, C3, C9, C10 -/

/-- Claim C1 is false on the code: a catalog entry whose measure returns a
scalar (here the number 2 under the label of a connectivity measure) leaves
no entry in the returned mapping — the scalar branch of
`calculate_centralities` (source lines 123-125) only prints the value and
never assigns `results[label]`. -/
theorem scalar_not_stored_cex :
    runMeasure cexG "Node Connectivity" (fun _ _ => .ok (.scalar (.num 2))) =
      .ok (.scalar (.num 2)) ∧
    (calculate_centralities cexG
        [("Node Connectivity", fun _ _ => .ok (.scalar (.num 2)))]).1.lookup
        "Node Connectivity" = none :=
  ⟨rfl, rfl⟩

/-- Claim C1 (amended): for a catalog entry whose measure returns a scalar
result, `calculate_centralities` prints the raw value (a header line and a
value line) but stores nothing: the returned mapping is exactly the mapping
of the remaining entries, so the measure's label is absent from it. -/
theorem scalar_result_printed_not_stored (g : Graph) (l : String) (f : MeasureFn)
    (v : ScalarVal) (rest : List (String × MeasureFn))
    (h : runMeasure g l f = .ok (.scalar v)) :
    (calculate_centralities g ((l, f) :: rest)).1 = (calculate_centralities g rest).1 ∧
    (calculate_centralities g ((l, f) :: rest)).2 =
      .header l :: .valueLine v :: (calculate_centralities g rest).2 := by
  have hstep : measureStep g l f = (none, [.header l, .valueLine v]) := by
    unfold measureStep; rw [h]
  rw [calc_cons, hstep]
  simp

/-- Witness for the amended claim C1, at a concrete graph and scalar
measure. -/
theorem scalar_result_printed_not_stored_witness :
    runMeasure cexG "Node Connectivity" scalarMeasure = .ok (.scalar (.num 2)) ∧
    ((calculate_centralities cexG [("Node Connectivity", scalarMeasure)]).1 =
        (calculate_centralities cexG []).1 ∧
      (calculate_centralities cexG [("Node Connectivity", scalarMeasure)]).2 =
        .header "Node Connectivity" :: .valueLine (.num 2) ::
          (calculate_centralities cexG []).2) :=
  ⟨rfl, scalar_result_printed_not_stored cexG "Node Connectivity" scalarMeasure
    (.num 2) [] rfl⟩

/-- Claim C2: a measure that raises leaves its label absent from the result
mapping, and a `(label, error)` diagnostic is recorded in the diagnostics
of the run (the error lines of the printed output, the run's diagnostic
surface); the error is not propagated — `calculate_centralities` is total
in the embedding because the source wraps every measure in
`try`/`except`. -/
theorem raising_measure_absent_and_diagnosed (g : Graph)
    (pre post : List (String × MeasureFn)) (l : String) (f : MeasureFn) (e : String)
    (hf : runMeasure g l f = .error e)
    (hl : l ∉ (pre ++ post).map Prod.fst) :
    (calculate_centralities g (pre ++ (l, f) :: post)).1.lookup l = none ∧
    (l, e) ∈ diagnosticsOf (calculate_centralities g (pre ++ (l, f) :: post)).2 := by
  have hstep : measureStep g l f = (none, [.errorLine l e]) := by
    unfold measureStep; rw [hf]
  have hl1 : l ∉ pre.map Prod.fst := fun h => hl (by simp [h])
  have hl2 : l ∉ post.map Prod.fst := fun h => hl (by simp [h])
  have hres : (calculate_centralities g (pre ++ (l, f) :: post)).1 =
      (calculate_centralities g pre).1 ++ (calculate_centralities g post).1 := by
    rw [calc_append]
    simp [calc_cons, hstep]
  have hlog : (calculate_centralities g (pre ++ (l, f) :: post)).2 =
      (calculate_centralities g pre).2 ++
        (.errorLine l e :: (calculate_centralities g post).2) := by
    rw [calc_append]
    simp [calc_cons, hstep]
  constructor
  · rw [hres]
    have h1 : (calculate_centralities g pre).1.lookup l = none :=
      lookup_eq_none_of_key_not_mem _ _
        (fun p hp heq => hl1 (heq ▸ mem_results_key g pre p hp))
    rw [lookup_append_of_none _ _ _ h1]
    exact lookup_eq_none_of_key_not_mem _ _
      (fun p hp heq => hl2 (heq ▸ mem_results_key g post p hp))
  · rw [hlog]
    simp [diagnosticsOf, List.filterMap_append]

/-- Witness for claim C2 at a concrete raising measure. -/
theorem raising_measure_absent_and_diagnosed_witness :
    runMeasure cexG "Eigenvector" failingMeasure = .error "boom" ∧
    "Eigenvector" ∉ ([("Degree", degreeDict)] ++
      ([] : List (String × MeasureFn))).map Prod.fst ∧
    ((calculate_centralities cexG
        ([("Degree", degreeDict)] ++ ("Eigenvector", failingMeasure) :: [])).1.lookup
        "Eigenvector" = none ∧
      ("Eigenvector", "boom") ∈ diagnosticsOf (calculate_centralities cexG
        ([("Degree", degreeDict)] ++ ("Eigenvector", failingMeasure) :: [])).2) :=
  ⟨rfl, by decide,
    raising_measure_absent_and_diagnosed cexG [("Degree", degreeDict)] []
      "Eigenvector" failingMeasure "boom" rfl (by decide)⟩

/-- Claim C3: one raising measure is isolated — the result mapping of the
catalog with the failing entry equals the result mapping of the catalog
without it, so every other measure's result is unchanged; the call is
total (never raises) in the embedding because the source wraps each
measure in `try`/`except`, and distinct graphs are processed by separate
calls. -/
theorem failing_measure_is_isolated (g : Graph)
    (pre post : List (String × MeasureFn)) (l : String) (f : MeasureFn) (e : String)
    (h : runMeasure g l f = .error e) :
    (calculate_centralities g (pre ++ (l, f) :: post)).1 =
      (calculate_centralities g (pre ++ post)).1 := by
  have hstep : measureStep g l f = (none, [.errorLine l e]) := by
    unfold measureStep; rw [h]
  rw [calc_append, calc_append]
  simp [calc_cons, hstep]

/-- Witness for claim C3 at a concrete catalog with one failing entry. -/
theorem failing_measure_is_isolated_witness :
    runMeasure cexG "Eigenvector" failingMeasure = .error "boom" ∧
    (calculate_centralities cexG
        ([("Degree", degreeDict)] ++ ("Eigenvector", failingMeasure) ::
          [("PageRank", degreeDict)])).1 =
      (calculate_centralities cexG
        ([("Degree", degreeDict)] ++ [("PageRank", degreeDict)])).1 :=
  ⟨rfl, failing_measure_is_isolated cexG [("Degree", degreeDict)]
    [("PageRank", degreeDict)] "Eigenvector" failingMeasure "boom" rfl⟩

/-- Claim C9: a run of `calculate_centralities` leaves the graph and the
catalog of the world state unchanged (the source assigns only to its local
`results`, and the catalog functions are external pure algorithms), and
therefore a second run over the state produced by the first returns an
identical result mapping. -/
theorem rerun_returns_identical_mapping (s : WorldState) :
    (runOnce s).1.graph = s.graph ∧
    (runOnce s).1.catalog = s.catalog ∧
    (runOnce ((runOnce s).1)).2 = (runOnce s).2 :=
  ⟨rfl, rfl, rfl⟩

/-- Claim C10: `evaluate_connectivity` raises on the zero-node graph
(`max` over the empty component list), and the per-graph loop of `main`
calls it without guarding against an empty graph: an empty graph in a
shard stops that shard's loop with the error, whatever the catalogs and
the accumulated table. -/
theorem empty_graph_raises_unguarded :
    evaluate_connectivity emptyGraph = none ∧
    ∀ (dictCent dictConn : List (String × MeasureFn)) (file : String)
      (df : DataFrame) (rest : List Graph) (i : ℕ),
      processGraphsLoop dictCent dictConn file df (emptyGraph :: rest) i =
        (df, some "max() arg is an empty sequence") := by
  refine ⟨by decide, fun dictCent dictConn file df rest i => rfl⟩

/-! ## Helper lemmas for Python `min`/`max` folds -/

lemma foldl_min_le_init (x : ℚ) (xs : List ℚ) : xs.foldl min x ≤ x := by
  induction xs generalizing x with
  | nil => exact le_refl x
  | cons y ys ih => exact le_trans (ih (min x y)) (min_le_left x y)

lemma foldl_min_mem (x : ℚ) (xs : List ℚ) : xs.foldl min x ∈ x :: xs := by
  induction xs generalizing x with
  | nil => simp
  | cons y ys ih =>
    rcases List.mem_cons.1 (ih (min x y)) with h1 | h2
    · rcases min_choice x y with hm | hm
      · rw [List.foldl_cons, h1, hm]; simp
      · rw [List.foldl_cons, h1, hm]; simp
    · simp [List.foldl_cons, List.mem_cons.2 (Or.inr (List.mem_cons.2 (Or.inr h2)))]

lemma foldl_min_le (x : ℚ) (xs : List ℚ) : ∀ y ∈ x :: xs, xs.foldl min x ≤ y := by
  induction xs generalizing x with
  | nil => intro y hy; simp at hy; simp [hy]
  | cons z zs ih =>
    intro y hy
    rcases List.mem_cons.1 hy with h1 | h2
    · rw [h1, List.foldl_cons]
      exact le_trans (foldl_min_le_init _ _) (min_le_left x z)
    · rcases List.mem_cons.1 h2 with h3 | h4
      · rw [h3, List.foldl_cons]
        exact le_trans (foldl_min_le_init _ _) (min_le_right x z)
      · exact ih (min x z) y (List.mem_cons.2 (Or.inr h4))

lemma le_foldl_max_init (x : ℚ) (xs : List ℚ) : x ≤ xs.foldl max x := by
  induction xs generalizing x with
  | nil => exact le_refl x
  | cons y ys ih => exact le_trans (le_max_left x y) (ih (max x y))

lemma foldl_max_mem (x : ℚ) (xs : List ℚ) : xs.foldl max x ∈ x :: xs := by
  induction xs generalizing x with
  | nil => simp
  | cons y ys ih =>
    rcases List.mem_cons.1 (ih (max x y)) with h1 | h2
    · rcases max_choice x y with hm | hm
      · rw [List.foldl_cons, h1, hm]; simp
      · rw [List.foldl_cons, h1, hm]; simp
    · simp [List.foldl_cons, List.mem_cons.2 (Or.inr (List.mem_cons.2 (Or.inr h2)))]

lemma foldl_max_le (x : ℚ) (xs : List ℚ) : ∀ y ∈ x :: xs, y ≤ xs.foldl max x := by
  induction xs generalizing x with
  | nil => intro y hy; simp at hy; simp [hy]
  | cons z zs ih =>
    intro y hy
    rcases List.mem_cons.1 hy with h1 | h2
    · rw [h1, List.foldl_cons]
      exact le_trans (le_max_left x z) (le_foldl_max_init _ _)
    · rcases List.mem_cons.1 h2 with h3 | h4
      · rw [h3, List.foldl_cons]
        exact le_trans (le_max_right x z) (le_foldl_max_init _ _)
      · exact ih (max x z) y (List.mem_cons.2 (Or.inr h4))

/-- Claim C5: for a per-node measure with a non-empty value mapping,
`calculate_centralities` stores the four-number summary: the average is the
value sum divided by the count, the minimum/maximum are true list extrema,
and the standard deviation is the square root of the mean squared deviation
(dividing by `N`, the population convention); concretely, values
`[1, 2, 3, 4]` give `{5/2, 1, 4, √(5/4) ≈ 1.1180}`, and a single value
gives standard deviation `0` rather than an error. -/
theorem distribution_summary_population_stats :
    (∀ (g : Graph) (l : String) (f : MeasureFn) (e0 : ℕ × ℚ) (es : List (ℕ × ℚ)),
      runMeasure g l f = .ok (.pyDict (e0 :: es)) →
      ∃ s, (calculate_centralities g [(l, f)]).1 = [(l, s)] ∧
        s.average = (e0.2 :: es.map Prod.snd).sum / (es.length + 1) ∧
        s.minimum ∈ e0.2 :: es.map Prod.snd ∧
        (∀ y ∈ e0.2 :: es.map Prod.snd, s.minimum ≤ y) ∧
        s.maximum ∈ e0.2 :: es.map Prod.snd ∧
        (∀ y ∈ e0.2 :: es.map Prod.snd, y ≤ s.maximum) ∧
        s.std_dev = PyReal.sqrtRat
          (((e0.2 :: es.map Prod.snd).map (fun x => (x - s.average) ^ 2)).sum /
            (es.length + 1))) ∧
    summarizeValues [1, 2, 3, 4] =
      some { average := 5 / 2, minimum := 1, maximum := 4,
             std_dev := .sqrtRat (5 / 4) } ∧
    |(PyReal.sqrtRat (5 / 4)).toReal - 1118 / 1000| < 1 / 1000 ∧
    (∀ x : ℚ, ∃ s, summarizeValues [x] = some s ∧
      s.average = x ∧ s.minimum = x ∧ s.maximum = x ∧ s.std_dev.toReal = 0) := by
  refine ⟨?_, ?_, ?_, ?_⟩
  · intro g l f e0 es h
    have hlen : ((e0.2 :: es.map Prod.snd).length : ℚ) = (es.length : ℚ) + 1 := by
      simp [List.length_map]
    have hstep1 : (measureStep g l f).1 =
        some (l, { average := mean (e0.2 :: es.map Prod.snd),
                   minimum := (es.map Prod.snd).foldl min e0.2,
                   maximum := (es.map Prod.snd).foldl max e0.2,
                   std_dev := pstdev (e0.2 :: es.map Prod.snd) }) := by
      unfold measureStep
      rw [h]
      rfl
    refine ⟨{ average := mean (e0.2 :: es.map Prod.snd),
              minimum := (es.map Prod.snd).foldl min e0.2,
              maximum := (es.map Prod.snd).foldl max e0.2,
              std_dev := pstdev (e0.2 :: es.map Prod.snd) },
      ?_, ?_, foldl_min_mem _ _, foldl_min_le _ _, foldl_max_mem _ _,
      foldl_max_le _ _, ?_⟩
    · simp [calc_cons, hstep1, calculate_centralities]
    · show mean (e0.2 :: es.map Prod.snd) = _
      rw [mean, hlen]
    · show pstdev (e0.2 :: es.map Prod.snd) = _
      rw [pstdev, pvariance, mean, hlen]
  · show summarizeValues ((1 : ℚ) :: [2, 3, 4]) = _
    simp only [summarizeValues, Option.some.injEq, DistributionSummary.mk.injEq]
    refine ⟨?_, ?_, ?_, ?_⟩
    · norm_num [mean]
    · norm_num [List.foldl, min_def]
    · norm_num [List.foldl, max_def]
    · rw [pstdev]
      congr 1
      norm_num [pvariance, mean]
  · have hc : ((5 / 4 : ℚ) : ℝ) = 5 / 4 := by norm_num
    have hlo : (1117 / 1000 : ℝ) < Real.sqrt ((5 / 4 : ℚ) : ℝ) := by
      rw [hc]
      have := (Real.lt_sqrt (by norm_num : (0 : ℝ) ≤ 1117 / 1000)).2
        (by norm_num : ((1117 : ℝ) / 1000) ^ 2 < 5 / 4)
      exact this
    have hhi : Real.sqrt ((5 / 4 : ℚ) : ℝ) < 1119 / 1000 := by
      rw [hc]
      exact (Real.sqrt_lt' (by norm_num : (0 : ℝ) < 1119 / 1000)).2 (by norm_num)
    rw [PyReal.toReal, abs_lt]
    constructor <;> [linarith; linarith]
  · intro x
    refine ⟨_, rfl, ?_, rfl, rfl, ?_⟩
    · show mean [x] = x
      simp [mean]
    · show (pstdev [x]).toReal = 0
      have hv : pvariance [x] = 0 := by
        simp [pvariance, mean]
      rw [pstdev, hv, PyReal.toReal]
      simp [Real.sqrt_zero]

/-- Witness for claim C5 at a concrete per-node measure with values
`[1, 2, 3, 4]`. -/
theorem distribution_summary_population_stats_witness :
    runMeasure cexG "Degree" degreeDict =
      .ok (.pyDict [(0, 1), (1, 2), (2, 3), (3, 4)]) ∧
    ∃ s, (calculate_centralities cexG [("Degree", degreeDict)]).1 = [("Degree", s)] ∧
      s.average = (((0, 1) : ℕ × ℚ).2 :: ([(1, 2), (2, 3), (3, 4)] :
          List (ℕ × ℚ)).map Prod.snd).sum /
        (([(1, 2), (2, 3), (3, 4)] : List (ℕ × ℚ)).length + 1) ∧
      s.minimum ∈ ((0, 1) : ℕ × ℚ).2 :: ([(1, 2), (2, 3), (3, 4)] :
        List (ℕ × ℚ)).map Prod.snd ∧
      (∀ y ∈ ((0, 1) : ℕ × ℚ).2 :: ([(1, 2), (2, 3), (3, 4)] :
        List (ℕ × ℚ)).map Prod.snd, s.minimum ≤ y) ∧
      s.maximum ∈ ((0, 1) : ℕ × ℚ).2 :: ([(1, 2), (2, 3), (3, 4)] :
        List (ℕ × ℚ)).map Prod.snd ∧
      (∀ y ∈ ((0, 1) : ℕ × ℚ).2 :: ([(1, 2), (2, 3), (3, 4)] :
        List (ℕ × ℚ)).map Prod.snd, y ≤ s.maximum) ∧
      s.std_dev = PyReal.sqrtRat
        (((((0, 1) : ℕ × ℚ).2 :: ([(1, 2), (2, 3), (3, 4)] :
          List (ℕ × ℚ)).map Prod.snd).map (fun x => (x - s.average) ^ 2)).sum /
          (([(1, 2), (2, 3), (3, 4)] : List (ℕ × ℚ)).length + 1)) :=
  ⟨rfl, distribution_summary_population_stats.1 cexG "Degree" degreeDict
    (0, 1) [(1, 2), (2, 3), (3, 4)] rfl⟩

/-! ## Helper lemmas about the table model -/

lemma indexOfCol_append_left (l l₂ : List String) (c : String) (j : ℕ)
    (h : indexOfCol l c = some j) : indexOfCol (l ++ l₂) c = some j := by
  induction l generalizing j with
  | nil => simp [indexOfCol] at h
  | cons k ks ih =>
    by_cases hk : k = c
    · simp [indexOfCol, hk] at h ⊢
      exact h
    · simp [indexOfCol, hk] at h ⊢
      obtain ⟨j', hj', rfl⟩ := h
      exact ⟨j', ih j' hj', rfl⟩

lemma indexOfCol_get (l : List String) (c : String) (j : ℕ)
    (h : indexOfCol l c = some j) : l.get? j = some c := by
  induction l generalizing j with
  | nil => simp [indexOfCol] at h
  | cons k ks ih =>
    by_cases hk : k = c
    · simp [indexOfCol, hk] at h
      simp [← h, hk]
    · simp [indexOfCol, hk] at h
      obtain ⟨j', hj', rfl⟩ := h
      simpa using ih j' hj'

lemma indexOfCol_of_mem (l : List String) (c : String) (h : c ∈ l) :
    ∃ j, indexOfCol l c = some j := by
  induction l with
  | nil => simp at h
  | cons k ks ih =>
    by_cases hk : k = c
    · exact ⟨0, by simp [indexOfCol, hk]⟩
    · rcases List.mem_cons.1 h with h1 | h2
      · exact absurd h1.symm hk
      · obtain ⟨j, hj⟩ := ih h2
        exact ⟨j + 1, by simp [indexOfCol, hk, hj]⟩

lemma get?_map_fn {α β : Type} (f : α → β) (l : List α) (j : ℕ) :
    (l.map f).get? j = (l.get? j).map f := by
  induction l generalizing j with
  | nil => simp
  | cons x xs ih =>
    cases j with
    | zero => simp
    | succ j' => exact ih j'

lemma get?_append_singleton {α : Type} (A : List α) (x : α) :
    (A ++ [x]).get? A.length = some x := by
  induction A with
  | nil => rfl
  | cons a as ih => exact ih

/-! ## Claim C4 -/

/-- Claim C4 is false on the code: after appending a record that has the
key `Centrality_Degree_Average` and then a record that lacks it (every
centrality failed on the second graph), row 1 of the aggregated table
*does* carry that key — `pd.concat` aligns all rows to the union of the
columns and fills the missing cell with `NaN`, a null placeholder, so the
set of present keys does not vary across rows of the table. -/
theorem table_nullfills_missing_measure_cex :
    "Centrality_Degree_Average" ∉ rowWithoutDegree.map Prod.fst ∧
    getCell (pdConcatRow (pdConcatRow emptyDF rowWithDegree) rowWithoutDegree) 1
      "Centrality_Degree_Average" = some PValue.nan := by
  constructor
  · decide
  · decide

/-- Claim C4 (amended): appending heterogeneous records never raises
(`pdConcatRow` is total), and the record dictionaries themselves carry only
the successfully computed keys; but the aggregated table aligns every row
to the union of the columns, so a measure key present in an earlier row and
absent from the appended record appears in the new table row filled with
`NaN` rather than being absent. -/
theorem table_concat_fills_missing_with_nan (df : DataFrame) (r : PyRow) (c : String)
    (hc : c ∈ df.cols) (hr : c ∉ r.map Prod.fst) :
    getCell (pdConcatRow df r) df.cells.length c = some PValue.nan := by
  obtain ⟨j, hj⟩ := indexOfCol_of_mem df.cols c hc
  have hlook : r.lookup c = none :=
    lookup_eq_none_of_key_not_mem r c
      (fun p hp heq => hr (heq ▸ List.mem_map_of_mem Prod.fst hp))
  have hcols : indexOfCol (pdConcatRow df r).cols c = some j :=
    indexOfCol_append_left df.cols _ c j hj
  have hget : (pdConcatRow df r).cols.get? j = some c :=
    indexOfCol_get _ c j hcols
  have hrow : (pdConcatRow df r).cells.get? df.cells.length =
      some ((pdConcatRow df r).cols.map (fun c' => ((r.lookup c').getD PValue.nan))) := by
    show (df.cells.map _ ++ [_]).get? df.cells.length = _
    have h := get?_append_singleton (df.cells.map
      (fun row => row ++ List.replicate ((r.map Prod.fst).filter
        (fun k => decide (k ∉ df.cols))).length PValue.nan))
      ((pdConcatRow df r).cols.map (fun c' => ((r.lookup c').getD PValue.nan)))
    rw [List.length_map] at h
    exact h
  rw [getCell, hcols, hrow]
  dsimp only
  rw [get?_map_fn, hget]
  simp [hlook]

/-- Witness for the amended claim C4 at the two concrete records. -/
theorem table_concat_fills_missing_with_nan_witness :
    "Centrality_Degree_Average" ∈ (pdConcatRow emptyDF rowWithDegree).cols ∧
    "Centrality_Degree_Average" ∉ rowWithoutDegree.map Prod.fst ∧
    getCell (pdConcatRow (pdConcatRow emptyDF rowWithDegree) rowWithoutDegree)
      (pdConcatRow emptyDF rowWithDegree).cells.length
      "Centrality_Degree_Average" = some PValue.nan :=
  ⟨by decide, by decide,
    table_concat_fills_missing_with_nan (pdConcatRow emptyDF rowWithDegree)
      rowWithoutDegree "Centrality_Degree_Average" (by decide) (by decide)⟩

/-! ## Helper lemmas about `main`'s shard loop -/

lemma runFrom_nil (dS dD : String → Except String Graph)
    (c1 c2 : List (String × MeasureFn)) (s : RunState) :
    runFrom dS dD c1 c2 s [] = s := rfl

lemma runFrom_cons (dS dD : String → Except String Graph)
    (c1 c2 : List (String × MeasureFn)) (s : RunState)
    (f : String × List String) (rest : List (String × List String)) :
    runFrom dS dD c1 c2 s (f :: rest) =
      runFrom dS dD c1 c2 (processFile dS dD c1 c2 s f) rest := rfl

lemma runFrom_append (dS dD : String → Except String Graph)
    (c1 c2 : List (String × MeasureFn)) (s : RunState)
    (xs ys : List (String × List String)) :
    runFrom dS dD c1 c2 s (xs ++ ys) =
      runFrom dS dD c1 c2 (runFrom dS dD c1 c2 s xs) ys := by
  simp [runFrom, List.foldl_append]

lemma processFile_shift (dS dD : String → Except String Graph)
    (c1 c2 : List (String × MeasureFn)) (s : RunState) (file : String × List String) :
    processFile dS dD c1 c2 s file =
      { df := (processFile dS dD c1 c2 ⟨s.df, s.gmap, []⟩ file).df,
        gmap := (processFile dS dD c1 c2 ⟨s.df, s.gmap, []⟩ file).gmap,
        failures := s.failures ++
          (processFile dS dD c1 c2 ⟨s.df, s.gmap, []⟩ file).failures } := by
  unfold processFile
  by_cases hg : strEndsWith file.1 ".g6"
  · simp only [hg, if_true]
    rcases hload : load_graphs_from_graph6_file dS dD file.2 with e | gs
    · simp [hload]
    · simp [hload]
  · simp [hg]

lemma runFrom_shift (dS dD : String → Except String Graph)
    (c1 c2 : List (String × MeasureFn)) (files : List (String × List String)) :
    ∀ s : RunState,
      runFrom dS dD c1 c2 s files =
        { df := (runFrom dS dD c1 c2 ⟨s.df, s.gmap, []⟩ files).df,
          gmap := (runFrom dS dD c1 c2 ⟨s.df, s.gmap, []⟩ files).gmap,
          failures := s.failures ++
            (runFrom dS dD c1 c2 ⟨s.df, s.gmap, []⟩ files).failures } := by
  induction files with
  | nil => intro s; simp [runFrom_nil]
  | cons f rest ih =>
    intro s
    rw [runFrom_cons, runFrom_cons]
    rw [ih (processFile dS dD c1 c2 s f),
      ih (processFile dS dD c1 c2 ⟨s.df, s.gmap, []⟩ f)]
    rw [processFile_shift dS dD c1 c2 s f]
    simp [List.append_assoc]

lemma processFile_bad (dS dD : String → Except String Graph)
    (c1 c2 : List (String × MeasureFn)) (bn : String) (bl : List String) (e : String)
    (hg6 : strEndsWith bn ".g6" = true)
    (hload : load_graphs_from_graph6_file dS dD bl = .error e) (s : RunState) :
    processFile dS dD c1 c2 s (bn, bl) =
      { s with failures := s.failures ++ [failMsg bn e] } := by
  simp [processFile, hg6, hload]

/-! ## Claim C8 -/

/-- Claim C8: when a shard fails to decode, the whole shard is abandoned —
the final table and the `graphs` map (hence the final summary) are those of
the run without that shard, no row of the shard is appended, and the only
difference in the reported failures is one `Failed to read` entry for that
shard; the remaining shards are processed exactly as before, so the run
completes. -/
theorem decode_failure_abandons_shard (dS dD : String → Except String Graph)
    (c1 c2 : List (String × MeasureFn)) (pre post : List (String × List String))
    (bn : String) (bl : List String) (e : String)
    (hg6 : strEndsWith bn ".g6" = true)
    (hload : load_graphs_from_graph6_file dS dD bl = .error e) :
    (mainRun dS dD c1 c2 (pre ++ (bn, bl) :: post)).df =
      (mainRun dS dD c1 c2 (pre ++ post)).df ∧
    (mainRun dS dD c1 c2 (pre ++ (bn, bl) :: post)).gmap =
      (mainRun dS dD c1 c2 (pre ++ post)).gmap ∧
    ∃ fpost,
      (mainRun dS dD c1 c2 (pre ++ post)).failures =
        (mainRun dS dD c1 c2 pre).failures ++ fpost ∧
      (mainRun dS dD c1 c2 (pre ++ (bn, bl) :: post)).failures =
        (mainRun dS dD c1 c2 pre).failures ++ failMsg bn e :: fpost := by
  have hmain : ∀ files, mainRun dS dD c1 c2 files = runFrom dS dD c1 c2 initState files :=
    fun _ => rfl
  have hw : mainRun dS dD c1 c2 (pre ++ (bn, bl) :: post) =
      runFrom dS dD c1 c2
        (processFile dS dD c1 c2 (mainRun dS dD c1 c2 pre) (bn, bl)) post := by
    rw [hmain, runFrom_append, runFrom_cons, hmain]
  have hwo : mainRun dS dD c1 c2 (pre ++ post) =
      runFrom dS dD c1 c2 (mainRun dS dD c1 c2 pre) post := by
    rw [hmain, runFrom_append, hmain]
  rw [hw, hwo, processFile_bad dS dD c1 c2 bn bl e hg6 hload]
  have h1 := runFrom_shift dS dD c1 c2 post
    ⟨(mainRun dS dD c1 c2 pre).df, (mainRun dS dD c1 c2 pre).gmap,
      (mainRun dS dD c1 c2 pre).failures ++ [failMsg bn e]⟩
  have h2 := runFrom_shift dS dD c1 c2 post (mainRun dS dD c1 c2 pre)
  refine ⟨?_, ?_, (runFrom dS dD c1 c2
    ⟨(mainRun dS dD c1 c2 pre).df, (mainRun dS dD c1 c2 pre).gmap, []⟩ post).failures,
    ?_, ?_⟩
  · rw [show ({ (mainRun dS dD c1 c2 pre) with failures :=
      (mainRun dS dD c1 c2 pre).failures ++ [failMsg bn e] } : RunState) =
      (⟨(mainRun dS dD c1 c2 pre).df, (mainRun dS dD c1 c2 pre).gmap,
        (mainRun dS dD c1 c2 pre).failures ++ [failMsg bn e]⟩ : RunState) from rfl,
      h1, h2]
  · rw [show ({ (mainRun dS dD c1 c2 pre) with failures :=
      (mainRun dS dD c1 c2 pre).failures ++ [failMsg bn e] } : RunState) =
      (⟨(mainRun dS dD c1 c2 pre).df, (mainRun dS dD c1 c2 pre).gmap,
        (mainRun dS dD c1 c2 pre).failures ++ [failMsg bn e]⟩ : RunState) from rfl,
      h1, h2]
  · rw [h2]
  · rw [show ({ (mainRun dS dD c1 c2 pre) with failures :=
      (mainRun dS dD c1 c2 pre).failures ++ [failMsg bn e] } : RunState) =
      (⟨(mainRun dS dD c1 c2 pre).df, (mainRun dS dD c1 c2 pre).gmap,
        (mainRun dS dD c1 c2 pre).failures ++ [failMsg bn e]⟩ : RunState) from rfl,
      h1]
    simp [List.append_assoc]

/-- Witness for claim C8: a concrete two-shard run where the first shard's
only line fails to decode. -/
theorem decode_failure_abandons_shard_witness :
    (strEndsWith "bad.g6" ".g6" = true) ∧
    (load_graphs_from_graph6_file (fun _ => .error "nope") (fun _ => .error "bad byte")
      ["x"] = .error "bad byte") ∧
    ((mainRun (fun _ => .error "nope") (fun _ => .error "bad byte") [] []
        ([] ++ ("bad.g6", ["x"]) :: [("ok.g6", [])])).df =
      (mainRun (fun _ => .error "nope") (fun _ => .error "bad byte") [] []
        ([] ++ [("ok.g6", [])])).df ∧
      (mainRun (fun _ => .error "nope") (fun _ => .error "bad byte") [] []
        ([] ++ ("bad.g6", ["x"]) :: [("ok.g6", [])])).gmap =
        (mainRun (fun _ => .error "nope") (fun _ => .error "bad byte") [] []
          ([] ++ [("ok.g6", [])])).gmap ∧
      ∃ fpost,
        (mainRun (fun _ => .error "nope") (fun _ => .error "bad byte") [] []
          ([] ++ [("ok.g6", [])])).failures =
          (mainRun (fun _ => .error "nope") (fun _ => .error "bad byte") [] []
            []).failures ++ fpost ∧
        (mainRun (fun _ => .error "nope") (fun _ => .error "bad byte") [] []
          ([] ++ ("bad.g6", ["x"]) :: [("ok.g6", [])])).failures =
          (mainRun (fun _ => .error "nope") (fun _ => .error "bad byte") [] []
            []).failures ++ failMsg "bad.g6" "bad byte" :: fpost) :=
  ⟨rfl, rfl,
    decode_failure_abandons_shard (fun _ => .error "nope") (fun _ => .error "bad byte")
      [] [] [] [("ok.g6", [])] "bad.g6" ["x"] "bad byte" rfl rfl⟩

/-! ## Helper lemmas about reachability and components -/

lemma subset_stepF (g : Graph) (s : Finset ℕ) : s ⊆ stepF g s := by
  intro x hx
  exact Finset.mem_union_left _ hx

lemma mem_stepF {g : Graph} {s : Finset ℕ} {v : ℕ} :
    v ∈ stepF g s ↔ v ∈ s ∨ (v ∈ nodesF g ∧ ∃ w ∈ s, adjb g w v = true) := by
  simp [stepF]

lemma iterate_le_subset (g : Graph) (s : Finset ℕ) {k m : ℕ} (h : k ≤ m) :
    (stepF g)^[k] s ⊆ (stepF g)^[m] s := by
  induction m with
  | zero =>
    rw [Nat.le_zero.1 h]
  | succ m ih =>
    rcases Nat.eq_or_lt_of_le h with rfl | hlt
    · exact subset_rfl
    · rw [Function.iterate_succ_apply']
      exact subset_trans (ih (Nat.lt_succ_iff.1 hlt)) (subset_stepF g _)

lemma iterate_subset_nodes (g : Graph) {s : Finset ℕ} (hs : s ⊆ nodesF g) (k : ℕ) :
    (stepF g)^[k] s ⊆ nodesF g := by
  induction k with
  | zero => exact hs
  | succ k ih =>
    rw [Function.iterate_succ_apply']
    intro x hx
    rcases mem_stepF.1 hx with h1 | h2
    · exact ih h1
    · exact h2.1

lemma stepF_fix_iterate (g : Graph) {s : Finset ℕ} (h : stepF g s = s) (k : ℕ) :
    (stepF g)^[k] s = s := by
  induction k with
  | zero => rfl
  | succ k ih => rw [Function.iterate_succ_apply', ih, h]

lemma iterate_growth (g : Graph) (u : ℕ) (k : ℕ) :
    (∃ j, j < k ∧ stepF g ((stepF g)^[j] ({u} : Finset ℕ)) =
      (stepF g)^[j] ({u} : Finset ℕ)) ∨
    k + 1 ≤ ((stepF g)^[k] ({u} : Finset ℕ)).card := by
  induction k with
  | zero => right; simp
  | succ k ih =>
    rcases ih with ⟨j, hj, hfix⟩ | hcard
    · exact Or.inl ⟨j, Nat.lt_succ_of_lt hj, hfix⟩
    · by_cases hfix : stepF g ((stepF g)^[k] ({u} : Finset ℕ)) =
        (stepF g)^[k] ({u} : Finset ℕ)
      · exact Or.inl ⟨k, Nat.lt_succ_self k, hfix⟩
      · right
        have hss : (stepF g)^[k] ({u} : Finset ℕ) ⊂
            stepF g ((stepF g)^[k] ({u} : Finset ℕ)) :=
          Finset.ssubset_iff_subset_ne.2 ⟨subset_stepF g _, fun he => hfix he.symm⟩
        have hlt := Finset.card_lt_card hss
        rw [Function.iterate_succ_apply']
        omega

lemma reach_fixed (g : Graph) {u : ℕ} (hu : u ∈ nodesF g) :
    stepF g (reach g u) = reach g u := by
  have hsub : ({u} : Finset ℕ) ⊆ nodesF g := by simpa using hu
  rcases iterate_growth g u g.nodeList.length with ⟨j, hj, hfix⟩ | hcard
  · have h1 : (stepF g)^[g.nodeList.length] ({u} : Finset ℕ) =
        (stepF g)^[j] ({u} : Finset ℕ) := by
      have he : g.nodeList.length = (g.nodeList.length - j) + j := by omega
      rw [he, Function.iterate_add_apply]
      exact stepF_fix_iterate g hfix _
    rw [reach, h1, hfix]
  · exfalso
    have h2 : ((stepF g)^[g.nodeList.length] ({u} : Finset ℕ)).card ≤ (nodesF g).card :=
      Finset.card_le_card (iterate_subset_nodes g hsub _)
    have h3 : (nodesF g).card ≤ g.nodeList.length := List.toFinset_card_le _
    omega

lemma self_mem_reach (g : Graph) (u : ℕ) : u ∈ reach g u := by
  have h0 : u ∈ (stepF g)^[0] ({u} : Finset ℕ) := by simp
  exact iterate_le_subset g {u} (Nat.zero_le _) h0

lemma reach_subset_nodes (g : Graph) {u : ℕ} (hu : u ∈ nodesF g) :
    reach g u ⊆ nodesF g :=
  iterate_subset_nodes g (by simpa using hu) _

lemma mem_iterate_reachP (g : Graph) {u v : ℕ} (k : ℕ)
    (h : v ∈ (stepF g)^[k] ({u} : Finset ℕ)) : ReachP g u v := by
  induction k generalizing v with
  | zero =>
    simp at h
    rw [h]
    exact Relation.ReflTransGen.refl
  | succ k ih =>
    rw [Function.iterate_succ_apply'] at h
    rcases mem_stepF.1 h with h1 | ⟨hv, w, hw, hadj⟩
    · exact ih h1
    · exact (ih hw).tail ⟨hv, hadj⟩

lemma mem_reach_of_reachP (g : Graph) {u v : ℕ} (hu : u ∈ nodesF g)
    (h : ReachP g u v) : v ∈ reach g u := by
  induction h with
  | refl => exact self_mem_reach g u
  | @tail b c hab hbc ih =>
    have hm : c ∈ stepF g (reach g u) :=
      mem_stepF.2 (Or.inr ⟨hbc.1, b, ih, hbc.2⟩)
    rwa [reach_fixed g hu] at hm

lemma adjb_symm {g : Graph} {a b : ℕ} : adjb g a b = true ↔ adjb g b a = true := by
  simp only [adjb, List.any_eq_true, Bool.or_eq_true, Bool.and_eq_true,
    decide_eq_true_eq]
  constructor <;> rintro ⟨e, he, hor⟩ <;> exact ⟨e, he, by tauto⟩

lemma reachP_target (g : Graph) {u v : ℕ} (h : ReachP g u v) :
    v = u ∨ v ∈ nodesF g := by
  induction h with
  | refl => exact Or.inl rfl
  | tail _ hbc _ => exact Or.inr hbc.1

lemma reachP_symm (g : Graph) {u v : ℕ} (hu : u ∈ nodesF g) (h : ReachP g u v) :
    ReachP g v u := by
  induction h with
  | refl => exact Relation.ReflTransGen.refl
  | @tail b c hab hbc ih =>
    have hb : b ∈ nodesF g := by
      rcases reachP_target g hab with rfl | hm
      · exact hu
      · exact hm
    exact Relation.ReflTransGen.head ⟨hb, adjb_symm.1 hbc.2⟩ ih

lemma mem_nodesF_subgraph {g : Graph} {s : Finset ℕ} {x : ℕ} :
    x ∈ nodesF (subgraph g s) ↔ x ∈ nodesF g ∧ x ∈ s := by
  simp [nodesF, subgraph, List.mem_filter]

lemma adjb_subgraph {g : Graph} {s : Finset ℕ} {a b : ℕ} :
    adjb (subgraph g s) a b = true ↔ a ∈ s ∧ b ∈ s ∧ adjb g a b = true := by
  simp only [adjb, subgraph, List.any_eq_true, List.mem_filter, Bool.and_eq_true,
    decide_eq_true_eq, Bool.or_eq_true]
  constructor
  · rintro ⟨e, ⟨he, h1, h2⟩, hor⟩
    rcases hor with ⟨ha, hb⟩ | ⟨ha, hb⟩
    · subst ha; subst hb
      exact ⟨h1, h2, e, he, Or.inl ⟨rfl, rfl⟩⟩
    · subst ha; subst hb
      exact ⟨h2, h1, e, he, Or.inr ⟨rfl, rfl⟩⟩
  · rintro ⟨ha, hb, e, he, hor⟩
    rcases hor with ⟨h1, h2⟩ | ⟨h1, h2⟩
    · exact ⟨e, ⟨he, by rw [h1]; exact ha, by rw [h2]; exact hb⟩, Or.inl ⟨h1, h2⟩⟩
    · exact ⟨e, ⟨he, by rw [h1]; exact hb, by rw [h2]; exact ha⟩, Or.inr ⟨h1, h2⟩⟩

lemma nodesF_subgraph_reach (g : Graph) {v : ℕ} (hv : v ∈ nodesF g) :
    nodesF (subgraph g (reach g v)) = reach g v := by
  ext x
  rw [mem_nodesF_subgraph]
  exact ⟨fun h => h.2, fun h => ⟨reach_subset_nodes g hv h, h⟩⟩

lemma reachP_subgraph_lift (g : Graph) {v y : ℕ} (hv : v ∈ nodesF g)
    (h : ReachP g v y) : ReachP (subgraph g (reach g v)) v y := by
  induction h with
  | refl => exact Relation.ReflTransGen.refl
  | @tail b c hab hbc ih =>
    have hbL : b ∈ reach g v := mem_reach_of_reachP g hv hab
    have hcL : c ∈ reach g v := mem_reach_of_reachP g hv (hab.tail hbc)
    exact ih.tail ⟨mem_nodesF_subgraph.2 ⟨hbc.1, hcL⟩,
      adjb_subgraph.2 ⟨hbL, hcL, hbc.2⟩⟩

lemma dist_isSome_of_mem_reach (g : Graph) {u w : ℕ} (h : w ∈ reach g u) :
    (dist g u w).isSome = true := by
  rw [dist, Option.isSome_iff_ne_none]
  intro hnone
  rw [List.find?_eq_none] at hnone
  have hk := hnone g.nodeList.length (List.mem_range.2 (Nat.lt_succ_self _))
  simp at hk
  exact hk h

lemma dist_self_zero (g : Graph) (u : ℕ) : dist g u u = some 0 := by
  rw [dist, List.range_succ_eq_map]
  exact List.find?_cons_of_pos _ (by simp)

lemma dist_subgraph_isSome (g : Graph) {v u w : ℕ} (hv : v ∈ nodesF g)
    (hu : u ∈ reach g v) (hw : w ∈ reach g v) :
    (dist (subgraph g (reach g v)) u w).isSome = true := by
  have hvH : v ∈ nodesF (subgraph g (reach g v)) :=
    mem_nodesF_subgraph.2 ⟨hv, self_mem_reach g v⟩
  have h1 : ReachP g v u := mem_iterate_reachP g g.nodeList.length hu
  have h2 : ReachP g v w := mem_iterate_reachP g g.nodeList.length hw
  have l1 := reachP_subgraph_lift g hv h1
  have l2 := reachP_subgraph_lift g hv h2
  have huw : ReachP (subgraph g (reach g v)) u w :=
    Relation.ReflTransGen.trans (reachP_symm _ hvH l1) l2
  have huH : u ∈ nodesF (subgraph g (reach g v)) :=
    mem_nodesF_subgraph.2 ⟨reach_subset_nodes g hv hu, hu⟩
  exact dist_isSome_of_mem_reach _ (mem_reach_of_reachP _ huH huw)

lemma diameter_reach_subgraph (g : Graph) {v : ℕ} (hv : v ∈ nodesF g) :
    ∃ d, diameter (subgraph g (reach g v)) = some d := by
  rw [diameter, if_pos]
  · exact ⟨_, rfl⟩
  · constructor
    · exact ⟨v, mem_nodesF_subgraph.2 ⟨hv, self_mem_reach g v⟩⟩
    · intro u hu w hw
      rw [nodesF_subgraph_reach g hv] at hu hw
      exact dist_subgraph_isSome g hv hu hw

lemma componentsAux_mem (g : Graph) :
    ∀ (l : List ℕ) (seen : Finset ℕ) (C : Finset ℕ),
      C ∈ componentsAux g l seen → ∃ v ∈ l, C = reach g v := by
  intro l
  induction l with
  | nil => intro seen C h; simp [componentsAux] at h
  | cons x xs ih =>
    intro seen C h
    rw [componentsAux] at h
    by_cases hx : x ∈ seen
    · rw [if_pos hx] at h
      obtain ⟨v, hv, hC⟩ := ih _ C h
      exact ⟨v, List.mem_cons_of_mem _ hv, hC⟩
    · rw [if_neg hx] at h
      rcases List.mem_cons.1 h with h1 | h2
      · exact ⟨x, List.mem_cons_self _ _, h1⟩
      · obtain ⟨v, hv, hC⟩ := ih _ C h2
        exact ⟨v, List.mem_cons_of_mem _ hv, hC⟩

lemma connected_components_ne_nil (g : Graph) (h : g.nodeList ≠ []) :
    connected_components g ≠ [] := by
  rw [connected_components]
  cases hl : g.nodeList with
  | nil => exact absurd hl h
  | cons x xs =>
    rw [componentsAux, if_neg (by simp)]
    simp

lemma pyMaxFold_mem : ∀ (xs : List (Finset ℕ)) (a : Finset ℕ),
    xs.foldl (fun acc y => if acc.card < y.card then y else acc) a ∈ a :: xs := by
  intro xs
  induction xs with
  | nil => intro a; simp
  | cons y ys ih =>
    intro a
    rw [List.foldl_cons]
    rcases List.mem_cons.1 (ih (if a.card < y.card then y else a)) with h1 | h2
    · rw [h1]
      by_cases hc : a.card < y.card
      · simp [hc]
      · simp [hc]
    · exact List.mem_cons.2 (Or.inr (List.mem_cons.2 (Or.inr h2)))

lemma pyMaxFold_ge : ∀ (xs : List (Finset ℕ)) (a : Finset ℕ) (C : Finset ℕ),
    C ∈ a :: xs →
    C.card ≤ (xs.foldl (fun acc y => if acc.card < y.card then y else acc) a).card := by
  intro xs
  induction xs with
  | nil =>
    intro a C hC
    simp at hC
    simp [hC]
  | cons y ys ih =>
    intro a C hC
    rw [List.foldl_cons]
    have hstep : a.card ≤ (if a.card < y.card then y else a).card ∧
        y.card ≤ (if a.card < y.card then y else a).card := by
      by_cases hc : a.card < y.card
      · simp [hc]
        omega
      · simp [hc]
        omega
    rcases List.mem_cons.1 hC with h1 | h2
    · exact le_trans (by rw [h1]; exact hstep.1) (ih _ _ (List.mem_cons_self _ _))
    · rcases List.mem_cons.1 h2 with h3 | h4
      · exact le_trans (by rw [h3]; exact hstep.2) (ih _ _ (List.mem_cons_self _ _))
      · exact ih _ _ (List.mem_cons.2 (Or.inr h4))

lemma pyMaxByLen_spec {l : List (Finset ℕ)} {m : Finset ℕ}
    (h : pyMaxByLen l = some m) : m ∈ l ∧ ∀ C ∈ l, C.card ≤ m.card := by
  cases l with
  | nil => simp [pyMaxByLen] at h
  | cons x xs =>
    rw [pyMaxByLen] at h
    have hm := Option.some.inj h
    rw [← hm]
    exact ⟨pyMaxFold_mem xs x, fun C hC => pyMaxFold_ge xs x C hC⟩

lemma diameter_subgraph_singleton (g : Graph) {v : ℕ} (hv : v ∈ nodesF g) :
    diameter (subgraph g ({v} : Finset ℕ)) = some 0 := by
  have hnodes : nodesF (subgraph g ({v} : Finset ℕ)) = {v} := by
    ext x
    rw [mem_nodesF_subgraph, Finset.mem_singleton]
    exact ⟨fun h => h.2, fun h => ⟨h ▸ hv, h⟩⟩
  have hdall : ∀ u ∈ nodesF (subgraph g ({v} : Finset ℕ)),
      ∀ w ∈ nodesF (subgraph g ({v} : Finset ℕ)),
      (dist (subgraph g ({v} : Finset ℕ)) u w).isSome = true := by
    intro u hu w hw
    rw [hnodes, Finset.mem_singleton] at hu hw
    rw [hu, hw, dist_self_zero]
    rfl
  rw [diameter, if_pos ⟨⟨v, by rw [hnodes]; exact Finset.mem_singleton_self v⟩, hdall⟩]
  rw [hnodes, Finset.sup_singleton, Finset.sup_singleton, dist_self_zero]
  rfl

/-! ## Claims C7 and C6 -/

/-- Claim C7: `evaluate_connectivity` is total on every graph with at
least one node — the component list is non-empty, so `max` succeeds, and
the diameter of the induced subgraph of the chosen component is always
defined because that subgraph is connected; when the largest component is
a single node the returned diameter is the sentinel `0` rather than an
error. -/
theorem connectivity_summary_total (g : Graph) (h : g.nodeList ≠ []) :
    ∃ facts, evaluate_connectivity g = some facts ∧
      (facts.largest_size = 1 → facts.graph_diameter = 0) := by
  have hcc := connected_components_ne_nil g h
  obtain ⟨m, hm⟩ : ∃ m, pyMaxByLen (connected_components g) = some m := by
    cases hl : connected_components g with
    | nil => exact absurd hl hcc
    | cons C0 rest => rw [pyMaxByLen]; exact ⟨_, rfl⟩
  obtain ⟨v, hvl, hCv⟩ :=
    componentsAux_mem g g.nodeList ∅ m (pyMaxByLen_spec hm).1
  have hv : v ∈ nodesF g := List.mem_toFinset.2 hvl
  subst hCv
  obtain ⟨d, hd⟩ := diameter_reach_subgraph g hv
  refine ⟨{ num_components := number_connected_components g,
            largest_size := (reach g v).card, graph_diameter := d }, ?_, ?_⟩
  · unfold evaluate_connectivity
    rw [hm]
    dsimp only
    rw [hd]
  · intro h1
    have hsing : reach g v = {v} := by
      obtain ⟨x, hx⟩ := Finset.card_eq_one.1 h1
      have hvm := self_mem_reach g v
      rw [hx, Finset.mem_singleton] at hvm
      rw [hx, ← hvm]
    rw [hsing, diameter_subgraph_singleton g hv] at hd
    exact (Option.some.inj hd).symm

/-- Witness for claim C7 at the single-node graph. -/
theorem connectivity_summary_total_witness :
    (singletonGraph.nodeList ≠ []) ∧
    ∃ facts, evaluate_connectivity singletonGraph = some facts ∧
      (facts.largest_size = 1 → facts.graph_diameter = 0) :=
  ⟨by decide, connectivity_summary_total singletonGraph (by decide)⟩

/-- Claim C6: on the two-disjoint-triangles graph, `evaluate_connectivity`
reports 2 components, largest size 3 and diameter 1, while the diameter of
the whole disconnected graph is undefined (raises); and in general the
returned facts are the component count, the size of a component of maximal
cardinality, and the diameter of the induced subgraph of that component —
never of the whole graph. -/
theorem connectivity_facts_from_largest_component :
    evaluate_connectivity twoTriangles =
      some { num_components := 2, largest_size := 3, graph_diameter := 1 } ∧
    diameter twoTriangles = none ∧
    ∀ (g : Graph) (facts : ConnectivityFacts),
      evaluate_connectivity g = some facts →
      ∃ L ∈ connected_components g,
        (∀ C ∈ connected_components g, C.card ≤ L.card) ∧
        facts.num_components = number_connected_components g ∧
        facts.largest_size = L.card ∧
        diameter (subgraph g L) = some facts.graph_diameter := by
  refine ⟨by decide, by decide, ?_⟩
  intro g facts h
  unfold evaluate_connectivity at h
  rcases hm : pyMaxByLen (connected_components g) with _ | L
  · rw [hm] at h
    simp at h
  · rw [hm] at h
    dsimp only at h
    rcases hd : diameter (subgraph g L) with _ | d
    · rw [hd] at h
      simp at h
    · rw [hd] at h
      dsimp only at h
      have hspec := pyMaxByLen_spec hm
      refine ⟨L, hspec.1, hspec.2, ?_, ?_, ?_⟩
      · rw [← Option.some.inj h]
      · rw [← Option.some.inj h]
      · rw [← Option.some.inj h, hd]

/-- Witness for the general part of claim C6 at the two-triangle graph. -/
theorem connectivity_facts_from_largest_component_witness :
    evaluate_connectivity twoTriangles = some (ConnectivityFacts.mk 2 3 1) ∧
    ∃ L ∈ connected_components twoTriangles,
      (∀ C ∈ connected_components twoTriangles, C.card ≤ L.card) ∧
      (ConnectivityFacts.mk 2 3 1).num_components =
        number_connected_components twoTriangles ∧
      (ConnectivityFacts.mk 2 3 1).largest_size = L.card ∧
      diameter (subgraph twoTriangles L) =
        some (ConnectivityFacts.mk 2 3 1).graph_diameter :=
  ⟨by decide, connectivity_facts_from_largest_component.2.2 twoTriangles
    (ConnectivityFacts.mk 2 3 1) (by decide)⟩

end GraphTheory
